import Mathlib

/-!
Shallow embedding of src/vs/workbench/contrib/debug/browser/variablesView.ts.

The file implements the debugger's Variables view: a debounced, state-preserving
tree refresh driven by focus-change events, a view-state cache keyed by stack
frame identity, a lazy data source, renderer dispatch by element kind, and the
break-when-value commands fed by a module-level captured response.

External collaborators that the claims depend on but whose code is not under
src (the RunOnceScheduler, the async tree widget's lifecycle, the disposable
registry of the ViewPane base class) are modelled from the spec; every such
definition carries a doc comment starting with: Modelled from the spec.
-/

namespace VariablesViewModel

/-- A debug scope as this view consumes it: identity (getId) and the expensive
flag used by the auto-expand step (line 108). -/
structure ScopeData where
  id : String
  expensive : Bool
deriving DecidableEq, Repr

/-- A stack frame as this view consumes it: identity (getId), the explicit flag
of the focus event (line 153), and the result of getScopes (line 107). -/
structure FrameData where
  id : String
  explicit : Bool
  scopes : List ScopeData
deriving DecidableEq, Repr

/-- IAsyncDataTreeViewState: opaque snapshot of expand/collapse state, only
produced by getViewState and consumed by setInput. -/
structure TreeViewState where
  snapshot : Nat
deriving DecidableEq, Repr

/-- The slice of the WorkbenchAsyncDataTree the view manipulates: its input
(IStackFrame or null), the view state it currently reports, the view state
passed to the last setInput, the set of element ids for which hasNode is true,
and the ids expanded so far. -/
structure TreeModel where
  input : Option FrameData
  viewStateNow : TreeViewState
  appliedViewState : Option TreeViewState
  nodes : List String
  expanded : List String
deriving DecidableEq, Repr

/-- tree.setInput(input, viewState): records the new input and the view state
handed to the widget (undefined when the one-argument form is used, line 99). -/
def TreeModel.setInput (t : TreeModel) (i : Option FrameData)
    (vs : Option TreeViewState) : TreeModel :=
  { t with input := i, appliedViewState := vs }

/-- tree.hasNode on an element id. -/
def TreeModel.hasNode (t : TreeModel) (elemId : String) : Bool :=
  t.nodes.contains elemId

/-- tree.expand on an element id. -/
def TreeModel.expand (t : TreeModel) (elemId : String) : TreeModel :=
  { t with expanded := if t.expanded.contains elemId then t.expanded else t.expanded ++ [elemId] }

/-- Modelled from the spec: the RunOnceScheduler behind updateTreeScheduler is
not under src; the spec describes it as a single-shot delayed task that is
rescheduled (not stacked) on each new focus event, with a default delay fixed
at construction. pending lists the deadlines of every currently pending run
(a stacking scheduler would append; this one replaces). -/
structure SchedulerState where
  pending : List Nat
  defaultDelay : Nat
deriving DecidableEq, Repr

/-- scheduler.schedule(delay): replaces any pending run with a single run due at
now plus the given delay, the default delay when none is given. -/
def SchedulerState.schedule (s : SchedulerState) (now : Nat) (delay : Option Nat) :
    SchedulerState :=
  { s with pending := [now + delay.getD s.defaultDelay] }

/-- Modelled from the spec: disposing the scheduler cancels its pending run. -/
def SchedulerState.cancel (s : SchedulerState) : SchedulerState :=
  { s with pending := [] }

/-- The scheduler built in the constructor (line 116): idle, default delay 400. -/
def initialScheduler : SchedulerState :=
  { pending := [], defaultDelay := 400 }

/-- savedViewState.set (Map.set): bind the key to the value. The new binding
shadows any older one, which realizes Map.set's replacement semantics through
mapGet. -/
def mapSet (m : List (String × TreeViewState)) (k : String) (v : TreeViewState) :
    List (String × TreeViewState) :=
  (k, v) :: m

/-- savedViewState.get (Map.get): the binding of the key, if any. -/
def mapGet (m : List (String × TreeViewState)) (k : String) : Option TreeViewState :=
  (m.find? (fun p => p.1 = k)).map Prod.snd

/-- autoExpandedScopes.add (Set.add). -/
def setAdd (s : List String) (x : String) : List String :=
  if s.contains x then s else s ++ [x]

/-- The mutable state of a VariablesView instance: the tree, the two caches
(lines 69-70), the needsRefresh flag (line 67), body visibility, the refresh
scheduler, the horizontalScrolling local of renderBody (line 173), and the
disposed flag. -/
structure ViewPaneState where
  tree : TreeModel
  savedViewState : List (String × TreeViewState)
  autoExpandedScopes : List String
  needsRefresh : Bool
  visible : Bool
  scheduler : SchedulerState
  disposed : Bool
deriving DecidableEq, Repr

/-- The savedViewState cache after the saving step of the scheduled task
(lines 94-97): the current input's view state is stored under its id; a null
input saves nothing. -/
def savedAfterTask (st : ViewPaneState) : List (String × TreeViewState) :=
  match st.tree.input with
  | some inp => mapSet st.savedViewState inp.id st.tree.viewStateNow
  | none => st.savedViewState

/-- The body of updateTreeScheduler (lines 90-116), run when the scheduled task
fires: clear needsRefresh; save the current input's view state; if no stack
frame is focused set the input to null and stop; otherwise set the input to the
focused frame with its cached view state, then auto-expand the first
non-expensive scope if its node is present. focused is
viewModel.focusedStackFrame read at run time (line 91). -/
def updateTreeTask (st : ViewPaneState) (focused : Option FrameData) : ViewPaneState :=
  let st1 : ViewPaneState := { st with needsRefresh := false }
  let st2 : ViewPaneState := { st1 with savedViewState := savedAfterTask st }
  match focused with
  | none => { st2 with tree := st2.tree.setInput none none }
  | some sf =>
    let vs := mapGet st2.savedViewState sf.id
    let st3 : ViewPaneState := { st2 with tree := st2.tree.setInput (some sf) vs }
    match sf.scopes.find? (fun s => !s.expensive) with
    | some sc =>
      if st3.tree.hasNode sc.id then
        { st3 with autoExpandedScopes := setAdd st3.autoExpandedScopes sc.id,
                   tree := st3.tree.expand sc.id }
      else st3
    | none => st3

/-- The onDidFocusStackFrame handler (lines 145-155): with the body not visible
only set needsRefresh; otherwise schedule the refresh, with zero delay for an
explicit focus change and the scheduler's default delay otherwise. -/
def onDidFocusStackFrame (st : ViewPaneState) (now : Nat) (sf : FrameData) :
    ViewPaneState :=
  if !st.visible then { st with needsRefresh := true }
  else
    let timeout : Option Nat := if sf.explicit then some 0 else none
    { st with scheduler := st.scheduler.schedule now timeout }

/-- The onDidChangeBodyVisibility handler (lines 168-172), after the pane has
recorded the new visibility: schedule a refresh exactly when the body became
visible with needsRefresh set. -/
def onDidChangeBodyVisibility (st : ViewPaneState) (now : Nat) (visible : Bool) :
    ViewPaneState :=
  let st1 : ViewPaneState := { st with visible := visible }
  if visible && st1.needsRefresh then
    { st1 with scheduler := st1.scheduler.schedule now none }
  else st1

/-- A sequence of focus-change events (arrival time, focused frame) handled in
order by onDidFocusStackFrame. -/
def processFocusEvents (st : ViewPaneState) (es : List (Nat × FrameData)) :
    ViewPaneState :=
  es.foldl (fun s e => onDidFocusStackFrame s e.1 e.2) st

/-! ## Renderer dispatch (VariablesDelegate, lines 349-370) -/

/-- Tree elements as a closed tagged variant over the runtime classes the
delegate tests. In debugModel, ErrorScope extends Scope, so an instanceof
Scope test also accepts error scopes; VisualizedExpression and Variable are
unrelated to Scope. -/
inductive TreeElement
  | scopeEl (id : String)
  | errorScopeEl (id : String)
  | variableEl (id : String)
  | visualizedEl (id : String)
deriving DecidableEq, Repr

/-- element instanceof ErrorScope. -/
def isErrorScope : TreeElement → Bool
  | .errorScopeEl _ => true
  | _ => false

/-- element instanceof Scope: true for ErrorScope too, since it subclasses
Scope. -/
def isScope : TreeElement → Bool
  | .scopeEl _ => true
  | .errorScopeEl _ => true
  | _ => false

/-- element instanceof VisualizedExpression. -/
def isVisualizedExpression : TreeElement → Bool
  | .visualizedEl _ => true
  | _ => false

/-- ScopeErrorRenderer.ID (line 402). -/
def scopeErrorRendererId : String := "scopeError"

/-- ScopesRenderer.ID (line 374). -/
def scopesRendererId : String := "scope"

/-- VisualizedVariableRenderer.ID (line 424). -/
def visualizedVariableRendererId : String := "viz"

/-- VariablesRenderer.ID (line 522). -/
def variablesRendererId : String := "variable"

/-- VariablesDelegate.getTemplateId (lines 355-369): the if-chain of instanceof
tests, in source order. -/
def getTemplateId (e : TreeElement) : String :=
  if isErrorScope e then scopeErrorRendererId
  else if isScope e then scopesRendererId
  else if isVisualizedExpression e then visualizedVariableRendererId
  else variablesRendererId

/-! ## Data source (VariablesDataSource, lines 322-342) -/

/-- An inner IExpression or IScope as the data source sees it: identity, its
hasChildren flag, and the ids of the elements getChildren resolves to. -/
structure ExprNode where
  id : String
  childrenAvailable : Bool
  childIds : List String
deriving DecidableEq, Repr

/-- An element the data source can be handed: a stack frame (the tree input)
or an inner expression/scope node. -/
inductive DSElement
  | frameEl (f : FrameData)
  | exprEl (e : ExprNode)
deriving DecidableEq, Repr

/-- VariablesDataSource.hasChildren (lines 324-333): false for a null input,
true for a stack frame, the element's own flag otherwise. -/
def dsHasChildren : Option DSElement → Bool
  | none => false
  | some (.frameEl _) => true
  | some (.exprEl e) => e.childrenAvailable

/-- VariablesDataSource.doGetChildren (lines 335-341): the frame's scopes for a
stack frame, the element's own children otherwise (results by identity). -/
def dsGetChildren : DSElement → List String
  | .frameEl f => f.scopes.map ScopeData.id
  | .exprEl e => e.childIds

/-- Modelled from the spec: the async tree widget is not under src; per the
spec the data source lazily fetches children on demand, so the widget calls
doGetChildren for an element exactly when that node is expanded (and reports
children). fetchLog records each doGetChildren call the widget has made. -/
structure LazyTreeState where
  fetchLog : List DSElement
deriving DecidableEq, Repr

/-- Modelled from the spec: expanding a node asks the data source for that
node's children, and only then. -/
def LazyTreeState.expandNode (t : LazyTreeState) (e : DSElement) : LazyTreeState :=
  if dsHasChildren (some e) then { fetchLog := t.fetchLog ++ [e] } else t

/-! ## Break-when-value commands (lines 278-308, 769-800) -/

/-- DebugProtocol data breakpoint access types. -/
inductive AccessType
  | read
  | write
  | readWrite
deriving DecidableEq, Repr

/-- IDataBreakpointInfoResponse as consumed here: description, optional dataId,
optional canPersist, optional accessTypes. -/
structure DataBreakpointInfoResponse where
  description : String
  dataId : Option String
  canPersist : Option Bool
  accessTypes : Option (List AccessType)
deriving DecidableEq, Repr

/-- DataBreakpointSetType from debug.ts; the commands here always use
Variable. -/
inductive DataBreakpointSetType
  | Variable
  | Address
deriving DecidableEq, Repr

/-- The argument each break-when command passes to addDataBreakpoint. -/
structure DataBreakpoint where
  description : String
  srcType : DataBreakpointSetType
  srcDataId : Option String
  canPersist : Bool
  accessTypes : Option (List AccessType)
  accessType : AccessType
deriving DecidableEq, Repr

/-- The breakpoint a break-when command builds from the captured response
(lines 775, 786, 797): same description, dataId and accessTypes, canPersist
coerced from an optional boolean by the double-negation. -/
def mkDataBreakpoint (r : DataBreakpointInfoResponse) (a : AccessType) :
    DataBreakpoint :=
  { description := r.description
    srcType := .Variable
    srcDataId := r.dataId
    canPersist := r.canPersist.getD false
    accessTypes := r.accessTypes
    accessType := a }

/-- Handler of debug.breakWhenValueChanges (lines 770-778): the breakpoints it
adds, given the module-level dataBreakpointInfoResponse. -/
def breakWhenValueChangesHandler (g : Option DataBreakpointInfoResponse) :
    List DataBreakpoint :=
  match g with
  | none => []
  | some r => [mkDataBreakpoint r .write]

/-- Handler of debug.breakWhenValueIsAccessed (lines 781-789). -/
def breakWhenValueIsAccessedHandler (g : Option DataBreakpointInfoResponse) :
    List DataBreakpoint :=
  match g with
  | none => []
  | some r => [mkDataBreakpoint r .readWrite]

/-- Handler of debug.breakWhenValueIsRead (lines 792-800). -/
def breakWhenValueIsReadHandler (g : Option DataBreakpointInfoResponse) :
    List DataBreakpoint :=
  match g with
  | none => []
  | some r => [mkDataBreakpoint r .read]

/-- A context-menu open for a variable, as it affects the module-level
dataBreakpointInfoResponse: an open whose session supports data breakpoints
stores the awaited dataBreakpointInfo result (line 285), any other open
returns early (line 281) and leaves the variable untouched. -/
inductive MenuOpenEvent
  | withDataAccess (r : Option DataBreakpointInfoResponse)
  | withoutDataAccess
deriving DecidableEq, Repr

/-- Effect of one menu open on the module-level dataBreakpointInfoResponse. -/
def applyMenuOpen (g : Option DataBreakpointInfoResponse) :
    MenuOpenEvent → Option DataBreakpointInfoResponse
  | .withDataAccess r => r
  | .withoutDataAccess => g

/-- The module-level dataBreakpointInfoResponse after a sequence of menu
opens. -/
def capturedAfter (g : Option DataBreakpointInfoResponse)
    (es : List MenuOpenEvent) : Option DataBreakpointInfoResponse :=
  es.foldl applyMenuOpen g

/-! ## Expression-selection handler (lines 173-187) -/

/-- The tree options the handler touches plus an abstraction of every other
option; tree.options.horizontalScrolling has type boolean or undefined. -/
structure TreeOptions where
  horizontalScrolling : Option Bool
  otherOptions : Nat
deriving DecidableEq, Repr

/-- tree.updateOptions with an argument object holding only
horizontalScrolling (lines 179 and 184): patches only that option. -/
def updateHorizontalScrolling (o : TreeOptions) (v : Bool) : TreeOptions :=
  { o with horizontalScrolling := some v }

/-- State read and written by the onDidSelectExpression handler: the tree
options, the captured horizontalScrolling local of renderBody (line 173), the
node set for hasNode, and the rerender log. -/
structure SelectionState where
  opts : TreeOptions
  saved : Option Bool
  nodes : List String
  rerenderLog : List String
deriving DecidableEq, Repr

/-- The onDidSelectExpression handler (lines 174-187). e is the selected
expression's id, none when the event clears the selection. A selection of a
variable present in the tree captures the current horizontalScrolling value,
disables it when it was truthy, and rerenders the variable; a cleared
selection while a value is captured restores it and clears the capture; any
other event does nothing. -/
def onDidSelectExpression (st : SelectionState) (e : Option String) :
    SelectionState :=
  match e with
  | some vid =>
    if st.nodes.contains vid then
      let captured := st.opts.horizontalScrolling
      let opts :=
        if captured.getD false then updateHorizontalScrolling st.opts false
        else st.opts
      { st with saved := captured, opts := opts,
                rerenderLog := st.rerenderLog ++ [vid] }
    else st
  | none =>
    match st.saved with
    | some b => { st with opts := updateHorizontalScrolling st.opts b, saved := none }
    | none => st

/-! ## Disposal (constructor lines 86-117, renderBody lines 119-198) -/

/-- The resources a VariablesView owns that could require cleanup, the refresh
scheduler among them. -/
inductive ViewResource
  | vizRangeHelper
  | focusFrameListener
  | willUpdateViewsListener
  | treeWidget
  | dblClickListener
  | contextMenuListener
  | visibilityListener
  | selectExpressionListener
  | lazyExpressionListener
  | endSessionListener
  | treeScheduler
deriving DecidableEq, Repr

/-- The disposables the view hands to this._register, in source order
(lines 140, 145, 156, 164, 165, 166, 168, 174, 188, 194). The constructor
registers nothing: updateTreeScheduler is created at line 90 without a
this._register call, and the class overrides no dispose method. -/
def registeredDisposables : List ViewResource :=
  [.vizRangeHelper, .focusFrameListener, .willUpdateViewsListener, .treeWidget,
   .dblClickListener, .contextMenuListener, .visibilityListener,
   .selectExpressionListener, .lazyExpressionListener, .endSessionListener]

/-- Modelled from the spec: the ViewPane/Disposable base classes are not under
src; disposing the view disposes exactly the resources registered with
this._register, and disposing the scheduler cancels its pending run (spec:
cancellation on disposal must be guaranteed). -/
def disposeView (st : ViewPaneState) : ViewPaneState :=
  let st1 : ViewPaneState := { st with disposed := true }
  if registeredDisposables.contains .treeScheduler then
    { st1 with scheduler := st1.scheduler.cancel }
  else st1

/-! ## Concrete fixtures used by the witnesses -/

/-- A concrete tree view state. -/
def vsA : TreeViewState := ⟨7⟩

/-- Another concrete tree view state. -/
def vsB : TreeViewState := ⟨3⟩

/-- A cheap scope. -/
def scLocals : ScopeData := ⟨"locals", false⟩

/-- An expensive scope. -/
def scGlobals : ScopeData := ⟨"globals", true⟩

/-- A frame focused explicitly, with an expensive scope first. -/
def frameA : FrameData := ⟨"f1", true, [scGlobals, scLocals]⟩

/-- A frame focused by stepping. -/
def frameB : FrameData := ⟨"f2", false, [scLocals]⟩

/-- A concrete tree with frameA as input and the cheap scope present. -/
def treeA : TreeModel :=
  { input := some frameA, viewStateNow := vsA, appliedViewState := none,
    nodes := ["locals"], expanded := [] }

/-- A visible view over treeA with a fresh scheduler. -/
def stA : ViewPaneState :=
  { tree := treeA, savedViewState := [], autoExpandedScopes := [],
    needsRefresh := false, visible := true, scheduler := initialScheduler,
    disposed := false }

/-- stA with a view state cached for frameB by an earlier refresh. -/
def stC : ViewPaneState :=
  { stA with savedViewState := [("f2", vsB)] }

/-- stA with a refresh pending, due at 400. -/
def stPending : ViewPaneState :=
  { stA with scheduler := { pending := [400], defaultDelay := 400 } }

/-- stA hidden, with a refresh owing. -/
def stHidden : ViewPaneState :=
  { stA with visible := false, needsRefresh := true }

/-- A captured data breakpoint info response. -/
def respW : DataBreakpointInfoResponse :=
  ⟨"var v", some "d1", some true, some [.write, .read]⟩

/-- A selection state with horizontal scrolling enabled and variable v1 in the
tree. -/
def selA : SelectionState :=
  { opts := { horizontalScrolling := some true, otherOptions := 5 },
    saved := none, nodes := ["v1"], rerenderLog := [] }

/-! ## Helper lemmas -/

theorem onDidFocusStackFrame_visible_eq (st : ViewPaneState) (now : Nat)
    (sf : FrameData) : (onDidFocusStackFrame st now sf).visible = st.visible := by
  unfold onDidFocusStackFrame
  split <;> rfl

theorem onDidFocusStackFrame_defaultDelay_eq (st : ViewPaneState) (now : Nat)
    (sf : FrameData) :
    (onDidFocusStackFrame st now sf).scheduler.defaultDelay
      = st.scheduler.defaultDelay := by
  unfold onDidFocusStackFrame SchedulerState.schedule
  split <;> rfl

theorem onDidFocusStackFrame_pending_of_visible (st : ViewPaneState) (now : Nat)
    (sf : FrameData) (hv : st.visible = true) :
    (onDidFocusStackFrame st now sf).scheduler.pending
      = [now + (if sf.explicit then 0 else st.scheduler.defaultDelay)] := by
  unfold onDidFocusStackFrame SchedulerState.schedule
  rw [hv]
  cases h : sf.explicit <;> simp [h]

theorem onDidFocusStackFrame_pending_le (st : ViewPaneState) (now : Nat)
    (sf : FrameData) (h : st.scheduler.pending.length ≤ 1) :
    (onDidFocusStackFrame st now sf).scheduler.pending.length ≤ 1 := by
  unfold onDidFocusStackFrame SchedulerState.schedule
  split
  · exact h
  · simp

theorem processFocusEvents_cons (st : ViewPaneState) (e : Nat × FrameData)
    (es : List (Nat × FrameData)) :
    processFocusEvents st (e :: es)
      = processFocusEvents (onDidFocusStackFrame st e.1 e.2) es := rfl

theorem processFocusEvents_append (st : ViewPaneState)
    (es₁ es₂ : List (Nat × FrameData)) :
    processFocusEvents st (es₁ ++ es₂)
      = processFocusEvents (processFocusEvents st es₁) es₂ :=
  List.foldl_append _ _ _ _

theorem processFocusEvents_visible_eq (es : List (Nat × FrameData)) :
    ∀ st : ViewPaneState, (processFocusEvents st es).visible = st.visible := by
  induction es with
  | nil => intro st; rfl
  | cons e es ih =>
    intro st
    rw [processFocusEvents_cons, ih, onDidFocusStackFrame_visible_eq]

theorem processFocusEvents_defaultDelay_eq (es : List (Nat × FrameData)) :
    ∀ st : ViewPaneState,
      (processFocusEvents st es).scheduler.defaultDelay
        = st.scheduler.defaultDelay := by
  induction es with
  | nil => intro st; rfl
  | cons e es ih =>
    intro st
    rw [processFocusEvents_cons, ih, onDidFocusStackFrame_defaultDelay_eq]

theorem processFocusEvents_pending_le (es : List (Nat × FrameData)) :
    ∀ st : ViewPaneState, st.scheduler.pending.length ≤ 1 →
      (processFocusEvents st es).scheduler.pending.length ≤ 1 := by
  induction es with
  | nil => intro st h; exact h
  | cons e es ih =>
    intro st h
    rw [processFocusEvents_cons]
    exact ih _ (onDidFocusStackFrame_pending_le st e.1 e.2 h)

theorem mapGet_mapSet_self (m : List (String × TreeViewState)) (k : String)
    (v : TreeViewState) : mapGet (mapSet m k v) k = some v := by
  unfold mapGet mapSet
  rw [List.find?_cons_of_pos]
  · rfl
  · simp

theorem mapGet_mapSet_ne (m : List (String × TreeViewState)) (k k' : String)
    (v : TreeViewState) (h : k' ≠ k) : mapGet (mapSet m k v) k' = mapGet m k' := by
  unfold mapGet mapSet
  rw [List.find?_cons_of_neg]
  intro hc
  have hk : k = k' := by simpa using hc
  exact h hk.symm

theorem updateTreeTask_needsRefresh (st : ViewPaneState)
    (focused : Option FrameData) :
    (updateTreeTask st focused).needsRefresh = false := by
  unfold updateTreeTask
  cases focused with
  | none => rfl
  | some sf =>
    dsimp only
    split
    · split <;> rfl
    · rfl

theorem updateTreeTask_savedViewState (st : ViewPaneState)
    (focused : Option FrameData) :
    (updateTreeTask st focused).savedViewState = savedAfterTask st := by
  unfold updateTreeTask
  cases focused with
  | none => rfl
  | some sf =>
    dsimp only
    split
    · split <;> rfl
    · rfl

theorem updateTreeTask_input_some (st : ViewPaneState) (sf : FrameData) :
    (updateTreeTask st (some sf)).tree.input = some sf ∧
    (updateTreeTask st (some sf)).tree.appliedViewState
      = mapGet (savedAfterTask st) sf.id := by
  unfold updateTreeTask
  dsimp only
  split
  · split <;> exact ⟨rfl, rfl⟩
  · exact ⟨rfl, rfl⟩

theorem expand_contains_self (t : TreeModel) (i : String) :
    (t.expand i).expanded.contains i = true := by
  unfold TreeModel.expand
  by_cases h : i ∈ t.expanded
  · simp [h]
  · simp [h]

/-! ## Claim theorems -/

/-- C1: while the view body stays visible, every focus-change event reschedules
the single pending debounced refresh rather than queuing another one: after any
sequence of focus events at most one refresh run is pending, and a nonempty
sequence leaves exactly the one run rescheduled by its last event. -/
theorem focus_events_coalesce_refresh (st : ViewPaneState)
    (es : List (Nat × FrameData)) (hv : st.visible = true)
    (hp : st.scheduler.pending.length ≤ 1) :
    (processFocusEvents st es).scheduler.pending.length ≤ 1 ∧
    ∀ es₀ t sf, es = es₀ ++ [(t, sf)] →
      (processFocusEvents st es).scheduler.pending
        = [t + (if sf.explicit then 0 else st.scheduler.defaultDelay)] := by
  refine ⟨processFocusEvents_pending_le es st hp, ?_⟩
  intro es₀ t sf heq
  subst heq
  rw [processFocusEvents_append]
  have h1 : processFocusEvents (processFocusEvents st es₀) [(t, sf)]
      = onDidFocusStackFrame (processFocusEvents st es₀) t sf := rfl
  rw [h1, onDidFocusStackFrame_pending_of_visible _ _ _
    (by rw [processFocusEvents_visible_eq]; exact hv),
    processFocusEvents_defaultDelay_eq]

/-- Closed instance of focus_events_coalesce_refresh: three rapid focus events
on a visible view leave a single pending run, due per the last event. -/
theorem focus_events_coalesce_refresh_witness :
    stA.visible = true ∧ stA.scheduler.pending.length ≤ 1 ∧
    ((processFocusEvents stA [(0, frameB), (10, frameB), (20, frameA)]).scheduler.pending.length ≤ 1 ∧
     (processFocusEvents stA [(0, frameB), (10, frameB), (20, frameA)]).scheduler.pending
       = [20 + (if frameA.explicit then 0 else stA.scheduler.defaultDelay)]) := by
  have h := focus_events_coalesce_refresh stA [(0, frameB), (10, frameB), (20, frameA)]
    rfl (by decide)
  exact ⟨rfl, by decide, h.1, h.2 [(0, frameB), (10, frameB)] 20 frameA rfl⟩

/-- C2: with the body visible, the refresh for a focus event on sf is scheduled
with zero delay when sf.explicit is true and with the scheduler's default delay
otherwise, and the scheduler is constructed with default delay 400. -/
theorem focus_event_refresh_delay (st : ViewPaneState) (now : Nat)
    (sf : FrameData) (hv : st.visible = true)
    (hd : st.scheduler.defaultDelay = 400) :
    (onDidFocusStackFrame st now sf).scheduler.pending
      = [now + (if sf.explicit then 0 else 400)] ∧
    initialScheduler.defaultDelay = 400 := by
  refine ⟨?_, rfl⟩
  rw [onDidFocusStackFrame_pending_of_visible st now sf hv, hd]

/-- Closed instance of focus_event_refresh_delay: an explicit focus at time 5
is due at 5, a stepping focus at time 5 is due at 405. -/
theorem focus_event_refresh_delay_witness :
    stA.visible = true ∧ stA.scheduler.defaultDelay = 400 ∧
    (onDidFocusStackFrame stA 5 frameA).scheduler.pending = [5 + (if frameA.explicit then 0 else 400)] ∧
    (onDidFocusStackFrame stA 5 frameB).scheduler.pending = [5 + (if frameB.explicit then 0 else 400)] :=
  ⟨rfl, rfl, (focus_event_refresh_delay stA 5 frameA rfl rfl).1,
   (focus_event_refresh_delay stA 5 frameB rfl rfl).1⟩

/-- C3: one run of the scheduled refresh first saves the current input's view
state in the cache under the input's id; with no focused frame it sets the
input to null and does nothing else; with a focused frame it sets the input to
that frame together with the view state cached under the frame's id, so state
saved for a frame by an earlier refresh is reapplied when the frame is
refocused. -/
theorem refresh_preserves_view_state (st : ViewPaneState)
    (focused : Option FrameData) :
    (∀ inp, st.tree.input = some inp →
      mapGet (updateTreeTask st focused).savedViewState inp.id
        = some st.tree.viewStateNow) ∧
    (focused = none →
      updateTreeTask st focused
        = { st with needsRefresh := false, savedViewState := savedAfterTask st,
                    tree := st.tree.setInput none none }) ∧
    (∀ sf, focused = some sf →
      (updateTreeTask st focused).tree.input = some sf ∧
      (updateTreeTask st focused).tree.appliedViewState
        = mapGet (savedAfterTask st) sf.id) ∧
    (∀ sf vs, focused = some sf →
      (∀ inp, st.tree.input = some inp → inp.id ≠ sf.id) →
      mapGet st.savedViewState sf.id = some vs →
      (updateTreeTask st focused).tree.appliedViewState = some vs) := by
  refine ⟨?_, ?_, ?_, ?_⟩
  · intro inp hi
    rw [updateTreeTask_savedViewState]
    simp only [savedAfterTask, hi]
    exact mapGet_mapSet_self _ _ _
  · intro h
    subst h
    rfl
  · intro sf h
    subst h
    exact updateTreeTask_input_some st sf
  · intro sf vs h hne hget
    subst h
    rw [(updateTreeTask_input_some st sf).2]
    simp only [savedAfterTask]
    cases hi : st.tree.input with
    | none => exact hget
    | some inp =>
      rw [mapGet_mapSet_ne _ _ _ _ (Ne.symm (hne inp hi))]
      exact hget

/-- Closed instance of refresh_preserves_view_state: refreshing stC onto
frameB saves frameA's state under f1 and reapplies the state cached for f2. -/
theorem refresh_preserves_view_state_witness :
    mapGet (updateTreeTask stC (some frameB)).savedViewState "f1" = some vsA ∧
    (updateTreeTask stC (some frameB)).tree.appliedViewState = some vsB := by
  have h := refresh_preserves_view_state stC (some frameB)
  refine ⟨h.1 frameA rfl, h.2.2.2 frameB vsB rfl ?_ (by decide)⟩
  intro inp hi
  have h2 : frameA = inp := by injection (show some frameA = some inp from hi)
  subst h2
  decide

/-- C9: a focus event arriving with the body hidden only sets the needsRefresh
flag and schedules nothing; when the body next becomes visible with the flag
set a refresh is scheduled exactly then, and any other visibility change
schedules nothing; the flag is cleared when the refresh task runs. -/
theorem hidden_focus_defers_refresh (st : ViewPaneState) (now : Nat)
    (sf : FrameData) (v : Bool) (focused : Option FrameData) :
    (st.visible = false →
      onDidFocusStackFrame st now sf = { st with needsRefresh := true }) ∧
    (st.needsRefresh = true →
      onDidChangeBodyVisibility st now true
        = { st with visible := true,
                    scheduler := st.scheduler.schedule now none }) ∧
    (v = false ∨ st.needsRefresh = false →
      onDidChangeBodyVisibility st now v = { st with visible := v }) ∧
    (updateTreeTask st focused).needsRefresh = false := by
  refine ⟨?_, ?_, ?_, updateTreeTask_needsRefresh st focused⟩
  · intro h
    unfold onDidFocusStackFrame
    rw [h]
    rfl
  · intro h
    unfold onDidChangeBodyVisibility
    simp only [h]
    rfl
  · intro h
    unfold onDidChangeBodyVisibility
    rcases h with h | h <;> simp [h]

/-- Closed instance of hidden_focus_defers_refresh at stHidden: the hidden
focus event only flags, becoming visible schedules, staying hidden does not,
and the task clears the flag. -/
theorem hidden_focus_defers_refresh_witness :
    stHidden.visible = false ∧ stHidden.needsRefresh = true ∧
    onDidFocusStackFrame stHidden 9 frameB = { stHidden with needsRefresh := true } ∧
    onDidChangeBodyVisibility stHidden 9 true
      = { stHidden with visible := true,
                        scheduler := stHidden.scheduler.schedule 9 none } ∧
    onDidChangeBodyVisibility stHidden 9 false = { stHidden with visible := false } ∧
    (updateTreeTask stHidden none).needsRefresh = false := by
  have h := hidden_focus_defers_refresh stHidden 9 frameB false none
  exact ⟨rfl, rfl, h.1 rfl, h.2.1 rfl, h.2.2.1 (Or.inl rfl), h.2.2.2⟩

/-- C10: after a refresh with a focused frame, the first scope of the frame
whose expensive flag is false is expanded and its id recorded in
autoExpandedScopes, but only when its node is present in the tree at that
moment; when the frame has no non-expensive scope, or the node is absent,
nothing is expanded or recorded. -/
theorem auto_expand_first_cheap_scope (st : ViewPaneState) (sf : FrameData)
    (sc : ScopeData) :
    (sf.scopes.find? (fun s => !s.expensive) = some sc →
      (st.tree.hasNode sc.id = true →
        (updateTreeTask st (some sf)).autoExpandedScopes
          = setAdd st.autoExpandedScopes sc.id ∧
        (updateTreeTask st (some sf)).tree.expanded.contains sc.id = true) ∧
      (st.tree.hasNode sc.id = false →
        (updateTreeTask st (some sf)).autoExpandedScopes
          = st.autoExpandedScopes ∧
        (updateTreeTask st (some sf)).tree.expanded = st.tree.expanded)) ∧
    (sf.scopes.find? (fun s => !s.expensive) = none →
      (updateTreeTask st (some sf)).autoExpandedScopes = st.autoExpandedScopes ∧
      (updateTreeTask st (some sf)).tree.expanded = st.tree.expanded) := by
  constructor
  · intro hf
    constructor
    · intro hn
      unfold updateTreeTask
      simp only [hf]
      have hn' : (((({ st with needsRefresh := false } : ViewPaneState).tree.setInput
          (some sf) (mapGet (savedAfterTask st) sf.id))).hasNode sc.id) = true := hn
      simp only [TreeModel.hasNode] at hn' ⊢
      simp only [savedAfterTask]
      rw [if_pos]
      · exact ⟨rfl, expand_contains_self _ _⟩
      · exact hn
    · intro hn
      unfold updateTreeTask
      simp only [hf]
      rw [if_neg]
      · exact ⟨rfl, rfl⟩
      · simp only [TreeModel.setInput, TreeModel.hasNode]
        simp only [TreeModel.hasNode] at hn
        simpa using hn
  · intro hf
    unfold updateTreeTask
    simp only [hf]
    constructor <;> first | rfl | trivial

/-- Closed instance of auto_expand_first_cheap_scope: refreshing stA onto
frameA expands the locals scope, the first non-expensive one, present in the
tree. -/
theorem auto_expand_first_cheap_scope_witness :
    frameA.scopes.find? (fun s => !s.expensive) = some scLocals ∧
    stA.tree.hasNode scLocals.id = true ∧
    (updateTreeTask stA (some frameA)).autoExpandedScopes
      = setAdd stA.autoExpandedScopes scLocals.id ∧
    (updateTreeTask stA (some frameA)).tree.expanded.contains scLocals.id = true := by
  have h := (auto_expand_first_cheap_scope stA frameA scLocals).1 (by decide)
  have h1 := h.1 (by decide)
  exact ⟨by decide, by decide, h1.1, h1.2⟩

/-- C4: updateTreeScheduler is never handed to this._register and the view
overrides no dispose method, so disposing the view with a refresh pending does
not cancel it: at the concrete state below with a run due at 400, the run is
still pending after disposeView, contradicting guaranteed cancellation on
disposal. -/
theorem dispose_leaves_refresh_pending :
    registeredDisposables.contains ViewResource.treeScheduler = false ∧
    stPending.scheduler.pending = [400] ∧
    (disposeView stPending).disposed = true ∧
    (disposeView stPending).scheduler.pending = [400] := by
  refine ⟨by decide, rfl, rfl, ?_⟩
  unfold disposeView
  rw [if_neg]
  · rfl
  · decide

/-- C5: getTemplateId is total on the closed variant and picks exactly one of
four pairwise distinct renderer ids by runtime tag: scopeError for every
ErrorScope, with that test preceding the Scope test that an ErrorScope also
satisfies, scope for every other Scope, viz for every VisualizedExpression,
and variable for every remaining element. -/
theorem template_id_dispatch (e : TreeElement) :
    (isErrorScope e = true → getTemplateId e = scopeErrorRendererId) ∧
    (isErrorScope e = false → isScope e = true →
      getTemplateId e = scopesRendererId) ∧
    (isVisualizedExpression e = true →
      getTemplateId e = visualizedVariableRendererId) ∧
    (isErrorScope e = false → isScope e = false →
      isVisualizedExpression e = false → getTemplateId e = variablesRendererId) ∧
    (∀ i, isScope (TreeElement.errorScopeEl i) = true ∧
      getTemplateId (TreeElement.errorScopeEl i) = scopeErrorRendererId) ∧
    [scopeErrorRendererId, scopesRendererId, visualizedVariableRendererId,
      variablesRendererId].Pairwise (· ≠ ·) := by
  cases e <;>
    simp [getTemplateId, isErrorScope, isScope, isVisualizedExpression,
      scopeErrorRendererId, scopesRendererId, visualizedVariableRendererId,
      variablesRendererId]

/-- Closed instance of template_id_dispatch: an error scope dispatches to the
scopeError renderer although it also passes the Scope test. -/
theorem template_id_dispatch_witness :
    isErrorScope (TreeElement.errorScopeEl "s") = true ∧
    isScope (TreeElement.errorScopeEl "s") = true ∧
    getTemplateId (TreeElement.errorScopeEl "s") = scopeErrorRendererId :=
  ⟨rfl, rfl, (template_id_dispatch (TreeElement.errorScopeEl "s")).1 rfl⟩

theorem expandNode_foldl_fetchLog (es : List DSElement) :
    ∀ t : LazyTreeState,
      (es.foldl LazyTreeState.expandNode t).fetchLog
        = t.fetchLog ++ es.filter (fun x => dsHasChildren (some x)) := by
  induction es with
  | nil => intro t; simp
  | cons e es ih =>
    intro t
    rw [List.foldl_cons, ih]
    cases h : dsHasChildren (some e) with
    | true =>
      unfold LazyTreeState.expandNode
      rw [if_pos h]
      simp [List.filter_cons, h]
    | false =>
      unfold LazyTreeState.expandNode
      rw [if_neg (by simp [h])]
      simp [List.filter_cons, h]

/-- C6: the data source reports no children for a null input, children for
every stack frame, and the element's own flag otherwise; fetching a frame's
children yields exactly its scopes and fetching any other element's children
yields the element's own children; and the lazily fetching widget consults the
data source exactly for the nodes that get expanded and report children. -/
theorem data_source_lazy_children (f : FrameData) (e : ExprNode)
    (t : LazyTreeState) (es : List DSElement) :
    dsHasChildren none = false ∧
    dsHasChildren (some (DSElement.frameEl f)) = true ∧
    dsHasChildren (some (DSElement.exprEl e)) = e.childrenAvailable ∧
    dsGetChildren (DSElement.frameEl f) = f.scopes.map ScopeData.id ∧
    dsGetChildren (DSElement.exprEl e) = e.childIds ∧
    (es.foldl LazyTreeState.expandNode t).fetchLog
      = t.fetchLog ++ es.filter (fun x => dsHasChildren (some x)) :=
  ⟨rfl, rfl, rfl, rfl, rfl, expandNode_foldl_fetchLog es t⟩

/-- C7: after any sequence of context-menu opens for variables, each of the
three break-when commands adds exactly one data breakpoint built from the last
captured dataBreakpointInfo response, carrying the response's description,
dataId and accessTypes and its canPersist whenever one was given, with access
types write, readWrite and read respectively; and none of them adds a
breakpoint while no response is captured. -/
theorem break_commands_use_captured_response
    (g : Option DataBreakpointInfoResponse) (es : List MenuOpenEvent) :
    (∀ r, capturedAfter g es = some r →
      breakWhenValueChangesHandler (capturedAfter g es)
        = [mkDataBreakpoint r .write] ∧
      breakWhenValueIsAccessedHandler (capturedAfter g es)
        = [mkDataBreakpoint r .readWrite] ∧
      breakWhenValueIsReadHandler (capturedAfter g es)
        = [mkDataBreakpoint r .read] ∧
      (mkDataBreakpoint r .write).description = r.description ∧
      (mkDataBreakpoint r .write).srcDataId = r.dataId ∧
      (mkDataBreakpoint r .write).accessTypes = r.accessTypes ∧
      (∀ b, r.canPersist = some b → (mkDataBreakpoint r .write).canPersist = b)) ∧
    (capturedAfter g es = none →
      breakWhenValueChangesHandler (capturedAfter g es) = [] ∧
      breakWhenValueIsAccessedHandler (capturedAfter g es) = [] ∧
      breakWhenValueIsReadHandler (capturedAfter g es) = []) := by
  constructor
  · intro r hr
    rw [hr]
    refine ⟨rfl, rfl, rfl, rfl, rfl, rfl, ?_⟩
    intro b hb
    simp [mkDataBreakpoint, hb]
  · intro hr
    rw [hr]
    exact ⟨rfl, rfl, rfl⟩

/-- Closed instance of break_commands_use_captured_response: after a menu open
that captured respW, the three commands add one breakpoint each with access
types write, readWrite and read. -/
theorem break_commands_use_captured_response_witness :
    capturedAfter none [MenuOpenEvent.withDataAccess (some respW)] = some respW ∧
    breakWhenValueChangesHandler (capturedAfter none [MenuOpenEvent.withDataAccess (some respW)])
      = [mkDataBreakpoint respW .write] ∧
    breakWhenValueIsAccessedHandler (capturedAfter none [MenuOpenEvent.withDataAccess (some respW)])
      = [mkDataBreakpoint respW .readWrite] ∧
    breakWhenValueIsReadHandler (capturedAfter none [MenuOpenEvent.withDataAccess (some respW)])
      = [mkDataBreakpoint respW .read] ∧
    (mkDataBreakpoint respW .write).canPersist = true := by
  have h := (break_commands_use_captured_response none
    [MenuOpenEvent.withDataAccess (some respW)]).1 respW rfl
  exact ⟨rfl, h.1, h.2.1, h.2.2.1, h.2.2.2.2.2.2 true rfl⟩

/-- C8: when a selection event picks a variable present in the tree, the
handler captures the current horizontalScrolling value and, when it was
enabled, disables it; when a later event clears the selection while a value is
captured, it restores exactly the captured value and clears the capture; and
neither path touches any other tree option. -/
theorem horizontal_scrolling_capture_restore (st : SelectionState) (vid : String)
    (b : Bool) :
    (st.nodes.contains vid = true →
      (onDidSelectExpression st (some vid)).saved = st.opts.horizontalScrolling ∧
      (st.opts.horizontalScrolling = some true →
        (onDidSelectExpression st (some vid)).opts.horizontalScrolling
          = some false) ∧
      (st.opts.horizontalScrolling ≠ some true →
        (onDidSelectExpression st (some vid)).opts = st.opts) ∧
      (onDidSelectExpression st (some vid)).opts.otherOptions
        = st.opts.otherOptions) ∧
    (st.saved = some b →
      (onDidSelectExpression st none).opts.horizontalScrolling = some b ∧
      (onDidSelectExpression st none).saved = none ∧
      (onDidSelectExpression st none).opts.otherOptions
        = st.opts.otherOptions) := by
  constructor
  · intro hv
    unfold onDidSelectExpression
    simp only [hv]
    refine ⟨?_, ?_, ?_, ?_⟩
    · simp
    · intro hh
      simp [hh, updateHorizontalScrolling]
    · intro hh
      have hg : st.opts.horizontalScrolling.getD false = false := by
        cases hs : st.opts.horizontalScrolling with
        | none => rfl
        | some bb =>
          cases bb
          · rfl
          · exact absurd hs hh
      simp [hg]
    · by_cases hg : st.opts.horizontalScrolling.getD false = true <;>
        simp [hg, updateHorizontalScrolling]
  · intro hs
    unfold onDidSelectExpression
    simp [hs, updateHorizontalScrolling]

/-- Closed instance of horizontal_scrolling_capture_restore: selecting v1 in
selA captures the enabled horizontalScrolling and disables it, and the
clearing event on the resulting state restores it. -/
theorem horizontal_scrolling_capture_restore_witness :
    selA.nodes.contains "v1" = true ∧
    (onDidSelectExpression selA (some "v1")).saved = some true ∧
    (onDidSelectExpression selA (some "v1")).opts.horizontalScrolling = some false ∧
    (onDidSelectExpression (onDidSelectExpression selA (some "v1")) none).opts.horizontalScrolling = some true ∧
    (onDidSelectExpression (onDidSelectExpression selA (some "v1")) none).saved = none ∧
    (onDidSelectExpression (onDidSelectExpression selA (some "v1")) none).opts.otherOptions = 5 := by
  have h1 := (horizontal_scrolling_capture_restore selA "v1" true).1 (by decide)
  have h2 := (horizontal_scrolling_capture_restore
    (onDidSelectExpression selA (some "v1")) "v1" true).2 (by decide)
  exact ⟨by decide, h1.1, h1.2.1 rfl, h2.1, h2.2.1, h2.2.2⟩

end VariablesViewModel
